import Mathlib

/-!
Verification of the response-dashboard data pipeline.

The repository is a small reporting dashboard (three Python entry points:
`app.py` with `load_data`/`update_dashboard`, `streamlit_app.py` with
`load_data`/`main`, and a scratch `inspect_data.py`).  The core pipeline is
load -> normalize -> filter -> aggregate over a pandas DataFrame fetched
from a CSV export.  We embed that pipeline shallowly:

* A DataFrame is a `Table`: a list of header strings plus a list of rows.
  The pipeline only ever reads the seven recognized columns
  (`Timestamp`, `BDE NAME`, `PLAN`, `COMPANY NAME`, `MOBILE NO`,
  `CLOSED AMOUNT`, `Expected Closure Date`), so a `Row` carries one `Cell`
  per recognized column; unrecognized columns pass through untouched and
  play no role in any computation, hence are not carried.
* A `Cell` is `na` (NaN/missing), raw text `str`, a nullable datetime `dt`
  (`none` = NaT, as produced by `pd.to_datetime(errors='coerce')`), or a
  number `num` (as produced by `pd.to_numeric(...).fillna(0)`).
* A datetime `DT` is a calendar-day index (`day : Int`, days since an
  arbitrary epoch) plus a time-of-day offset (`tod : Nat`).  `.dt.date`
  and `.dt.normalize()` both project to `day`; `pd.Timedelta(days=7)`
  adds 7 to `day`.
* Python exceptions (`KeyError` from indexing a missing column, the
  `try/except` in `load_data`) are modelled with `Except String`.
* `pd.to_datetime`'s text parser is external library code; it is passed in
  as a parameter `pdt : String -> Option DT` (unparsable text -> `none`).
  `pd.to_numeric` is modelled by `parseNum` (optional sign + digits;
  decimal fractions are never exercised by the claims; unparsable -> `none`,
  which `fillna(0)` turns into `0`).
-/

namespace Responses

/-- A point in time: calendar-day index plus time-of-day offset. -/
structure DT where
  day : Int
  tod : Nat
  deriving DecidableEq, Repr

/-- One DataFrame cell of a recognized column. -/
inductive Cell where
  | na : Cell
  | str (s : String) : Cell
  | dt (d : Option DT) : Cell
  | num (q : Int) : Cell
  deriving DecidableEq, Repr

/-- One row, restricted to the seven recognized columns.  A cell is only
meaningful when the corresponding column name is present in the table's
headers. -/
structure Row where
  timestamp : Cell
  bdeName : Cell
  plan : Cell
  companyName : Cell
  mobileNo : Cell
  closedAmount : Cell
  expectedClosure : Cell
  deriving DecidableEq, Repr

/-- A DataFrame: header names (order preserved) plus rows. -/
structure Table where
  headers : List String
  rows : List Row
  deriving DecidableEq, Repr

/-- A dropdown selection: the sentinel value (`'ALL'` / `'All BDEs'` /
`'All Plans'`) or a concrete value. -/
inductive Sel where
  | all : Sel
  | only (s : String) : Sel
  deriving DecidableEq, Repr

/-- Recognized column names (`streamlit_app.py` / `app.py`). -/
def colTimestamp : String := "Timestamp"

/-- Column name of the salesperson field. -/
def colBde : String := "BDE NAME"

/-- Column name of the plan field. -/
def colPlan : String := "PLAN"

/-- Column name of the monetary field. -/
def colAmount : String := "CLOSED AMOUNT"

/-- Column name of the expected-closure field. -/
def colClosure : String := "Expected Closure Date"

/-- ASCII whitespace recognized by Python's `str.strip()` (the headers in
play never contain the rarer unicode whitespace). -/
def isSpaceChar (c : Char) : Bool :=
  c == ' ' || c == '\t' || c == '\n' || c == '\r' || c == '\x0b' || c == '\x0c'

/-- Drop leading and trailing whitespace characters. -/
def trimChars (cs : List Char) : List Char :=
  ((cs.dropWhile isSpaceChar).reverse.dropWhile isSpaceChar).reverse

/-- `df.columns.str.strip()` on one column name. -/
def stripName (s : String) : String :=
  String.mk (trimChars s.data)

/-- `pd.to_datetime(column, errors='coerce')` on one cell: text is parsed
(`none` on failure, i.e. NaT), NaN becomes NaT, an already-converted
datetime cell is unchanged.  (pandas' numeric-epoch conversion is mapped
to NaT; CSV input only produces `str`/`na` cells, so that case is
unreachable in the pipeline.) -/
def parseDateCell (pdt : String → Option DT) : Cell → Cell
  | .str s => .dt (pdt s)
  | .na => .dt none
  | .dt x => .dt x
  | .num _ => .dt none

/-- Accumulate a decimal digit string into a number; `none` on the first
non-digit character. -/
def digitsToNat : List Char → Nat → Option Nat
  | [], acc => some acc
  | c :: cs, acc => if c.isDigit then digitsToNat cs (acc * 10 + (c.toNat - 48)) else none

/-- Model of `pd.to_numeric(value, errors='coerce')` on a text cell:
an optional-sign decimal integer literal parses to its value, anything
else coerces to NaN (`none`).  (Decimal fractions, exponents and
surrounding whitespace, which pandas also accepts, are never exercised by
the claims and are not modelled.) -/
def parseNum (s : String) : Option Int :=
  match s.data with
  | [] => none
  | '-' :: cs => if cs = [] then none else (digitsToNat cs 0).map (fun n => -(n : Int))
  | cs => (digitsToNat cs 0).map (fun n => (n : Int))

/-- `pd.to_numeric(column, errors='coerce').fillna(0)` on one cell:
text parses to a number or, unparsable, to NaN which `fillna` maps to 0;
NaN becomes 0; an already-numeric cell is unchanged.  (datetime cells are
unreachable from CSV input.) -/
def parseNumCell : Cell → Cell
  | .str s => .num ((parseNum s).getD 0)
  | .na => .num 0
  | .num q => .num q
  | .dt _ => .num 0

/-- The per-row effect of the three guarded conversions in `load_data`
(`streamlit_app.py` lines 24-34): each typed column is converted only when
its (post-strip) name is among the headers. -/
def normRow (pdt : String → Option DT) (hs : List String) (r : Row) : Row :=
  let r1 := if colTimestamp ∈ hs then { r with timestamp := parseDateCell pdt r.timestamp } else r
  let r2 := if colClosure ∈ hs then { r1 with expectedClosure := parseDateCell pdt r1.expectedClosure } else r1
  if colAmount ∈ hs then { r2 with closedAmount := parseNumCell r2.closedAmount } else r2

/-- The normalization stage of `load_data` (`streamlit_app.py` lines 20-36):
strip the column names, then convert `Timestamp`, `Expected Closure Date`
and `CLOSED AMOUNT` when present.  (`app.py`'s copy omits the
`Expected Closure Date` conversion but is otherwise identical.) -/
def normalize (pdt : String → Option DT) (t : Table) : Table :=
  { headers := t.headers.map stripName
    rows := t.rows.map (normRow pdt (t.headers.map stripName)) }

/-- The empty DataFrame returned by `load_data`'s `except` branch. -/
def emptyTable : Table := { headers := [], rows := [] }

/-- `load_data`: the fetch either yields a raw table, which is normalized,
or raises, in which case the `try/except` returns an empty DataFrame. -/
def load_data (pdt : String → Option DT) (fetch : Except String Table) : Table :=
  match fetch with
  | .ok t => normalize pdt t
  | .error _ => emptyTable

/-- Error message for indexing a missing `BDE NAME` column. -/
def keyErrBde : String := "KeyError: BDE NAME"

/-- Error message for indexing a missing `PLAN` column. -/
def keyErrPlan : String := "KeyError: PLAN"

/-- Error message for aggregating a missing `CLOSED AMOUNT` column. -/
def keyErrAmount : String := "KeyError: CLOSED AMOUNT"

/-- The string value of a cell, if it is text (a NaN / datetime / numeric
cell compares unequal to every string, as in pandas elementwise `==`). -/
def strVal? : Cell → Option String
  | .str v => some v
  | _ => none

/-- The calendar-day component of a datetime cell (`.dt.date`,
equivalently `.dt.normalize()` up to the midnight timestamp); `none` for
NaT and for cells that are not datetimes. -/
def dayVal? : Cell → Option Int
  | .dt (some x) => some x.day
  | _ => none

/-- `df[df['BDE NAME'] == selected_bde]` (`streamlit_app.py` line 158,
`app.py` line 173), executed only when the selection is not the ALL
sentinel; indexing raises `KeyError` when the column is absent. -/
def applyBde (t : Table) : Sel → Except String Table
  | .all => .ok t
  | .only s =>
    if colBde ∈ t.headers then
      .ok { t with rows := t.rows.filter (fun r => decide (strVal? r.bdeName = some s)) }
    else .error keyErrBde

/-- `df[df['PLAN'] == selected_plan]` (`streamlit_app.py` line 161,
`app.py` line 176). -/
def applyPlan (t : Table) : Sel → Except String Table
  | .all => .ok t
  | .only s =>
    if colPlan ∈ t.headers then
      .ok { t with rows := t.rows.filter (fun r => decide (strVal? r.plan = some s)) }
    else .error keyErrPlan

/-- The date-range predicate of `streamlit_app.py` line 167:
`(ts.dt.date >= start) & (ts.dt.date <= end)`, both ends inclusive;
a NaT timestamp satisfies neither comparison. -/
def drMatch (p : Int × Int) (r : Row) : Bool :=
  match dayVal? r.timestamp with
  | some d => decide (p.1 ≤ d) && decide (d ≤ p.2)
  | none => false

/-- The guarded date-range filter of `streamlit_app.py` lines 165-168: it
applies only when a range was supplied and the `Timestamp` column exists
(otherwise it is silently skipped, never an error). -/
def applyDate (t : Table) : Option (Int × Int) → Table
  | none => t
  | some p =>
    if colTimestamp ∈ t.headers then
      { t with rows := t.rows.filter (fun r => drMatch p r) }
    else t

/-- The full filter stage (`streamlit_app.py` lines 155-168; `app.py`
lines 171-176 is the same without the date range): BDE filter, then Plan
filter, then date filter; a `KeyError` aborts the run. -/
def filterTable (t : Table) (bde plan : Sel) (dr : Option (Int × Int)) : Except String Table :=
  match applyBde t bde with
  | .error e => .error e
  | .ok t1 =>
    match applyPlan t1 plan with
    | .error e => .error e
    | .ok t2 => .ok (applyDate t2 dr)

/-- `len(filtered_df)` (`streamlit_app.py` line 171, `app.py` line 179). -/
def total_responses (t : Table) : Nat := t.rows.length

/-- The numeric value of a cell (the normalized `CLOSED AMOUNT` column is
all `num` cells; other cases are unreachable where this is used). -/
def cellNum : Cell → Int
  | .num q => q
  | _ => 0

/-- `filtered_df['CLOSED AMOUNT'].sum() if 'CLOSED AMOUNT' in
filtered_df.columns else 0` (`streamlit_app.py` line 172, `app.py`
line 180). -/
def totalClosedAmount (t : Table) : Int :=
  if colAmount ∈ t.headers then (t.rows.map (fun r => cellNum r.closedAmount)).sum else 0

/-- The non-null `BDE NAME` values of the rows, in row order. -/
def bdeList (t : Table) : List String :=
  t.rows.filterMap (fun r => strVal? r.bdeName)

/-- The non-null `PLAN` values of the rows, in row order. -/
def planList (t : Table) : List String :=
  t.rows.filterMap (fun r => strVal? r.plan)

/-- The non-null `Timestamp` calendar dates of the rows, in row order. -/
def dayList (t : Table) : List Int :=
  t.rows.filterMap (fun r => dayVal? r.timestamp)

/-- `df.groupby('BDE NAME').agg({'BDE NAME': 'count', 'CLOSED AMOUNT':
'sum'})` guarded by `if 'BDE NAME' in df.columns and not df.empty`
(`streamlit_app.py` lines 270-274, `app.py` lines 183-187).  The guard
does not check `CLOSED AMOUNT`: when it is absent the `agg` dict raises a
`KeyError`.  For each distinct non-null BDE: row count and amount sum.
(groupby's ascending key ordering is not modelled; no claim concerns the
order of this aggregate.) -/
def byBdeAgg (t : Table) : Except String (List (String × Nat × Int)) :=
  if colBde ∈ t.headers ∧ t.rows ≠ [] then
    if colAmount ∈ t.headers then
      .ok ((bdeList t).dedup.map (fun b =>
        (b, (t.rows.filter (fun r => decide (strVal? r.bdeName = some b))).length,
            ((t.rows.filter (fun r => decide (strVal? r.bdeName = some b))).map
              (fun r => cellNum r.closedAmount)).sum)))
    else .error keyErrAmount
  else .ok []

/-- `df['PLAN'].value_counts()` guarded by `if 'PLAN' in df.columns and
not df.empty` (`streamlit_app.py` lines 295-297, `app.py` lines 202-204):
for each distinct non-null plan, its row count.  (value_counts orders by
descending count; that ordering is not modelled; no claim concerns it.) -/
def byPlanAgg (t : Table) : List (String × Nat) :=
  if colPlan ∈ t.headers ∧ t.rows ≠ [] then
    (planList t).dedup.map (fun p => (p, ((planList t).filter (fun x => x == p)).length))
  else []

/-- Insert a day into a strictly-ascending list of days, keeping it
strictly ascending (duplicates collapse). -/
def insSorted (d : Int) : List Int → List Int
  | [] => [d]
  | x :: xs => if d < x then d :: x :: xs else if d = x then x :: xs else x :: insSorted d xs

/-- The distinct values of a list of days, in ascending order (the default
sorted grouping keys of `groupby`). -/
def sortedKeys (l : List Int) : List Int := l.foldr insSorted []

/-- Number of occurrences of a day in a list (`groupby(...).size()` for
one group). -/
def countInt (d : Int) (l : List Int) : Nat := (l.filter (fun x => x == d)).length

/-- `df.groupby(df['Timestamp'].dt.date).size()` guarded by
`if 'Timestamp' in df.columns and not df.empty` (`streamlit_app.py` lines
304-305, `app.py` lines 210-211): one entry per distinct non-NaT calendar
date in ascending key order (groupby sorts keys), with the row count of
each date; NaT keys are dropped by groupby. -/
def byDayAgg (t : Table) : List (Int × Nat) :=
  if colTimestamp ∈ t.headers ∧ t.rows ≠ [] then
    (sortedKeys (dayList t)).map (fun d => (d, countInt d (dayList t)))
  else []

/-- The normalized expected-closure date of a row
(`row['Expected Closure Date'].dt.normalize()`, as a day index). -/
def closureDay? (r : Row) : Option Int := dayVal? r.expectedClosure

/-- `filtered_df[filtered_df['Expected Closure Date'].dt.normalize() ==
today]` (`streamlit_app.py` line 231), guarded by the column-presence
check at line 227 (absent column: the section degrades, no bucket). -/
def dueToday (t : Table) (today : Int) : List Row :=
  if colClosure ∈ t.headers then
    t.rows.filter (fun r => decide (closureDay? r = some today))
  else []

/-- The upcoming-closures bucket (`streamlit_app.py` lines 234-237):
`today < closure.normalize() <= today + 7 days`, guarded as above. -/
def dueWithin7 (t : Table) (today : Int) : List Row :=
  if colClosure ∈ t.headers then
    t.rows.filter (fun r =>
      match closureDay? r with
      | some d => decide (today < d) && decide (d ≤ today + 7)
      | none => false)
  else []

/-- The derived values the pipeline hands to the renderer. -/
structure Outputs where
  filtered : List Row
  total_responses : Nat
  total_closed_amount : Int
  by_bde : List (String × Nat × Int)
  by_plan : List (String × Nat)
  by_day : List (Int × Nat)
  due_today : List Row
  due_within : List Row
  deriving DecidableEq, Repr

/-- The degraded outputs of the `df.empty` early return
(`app.py` lines 168-169: renders "0" and a zero amount with empty charts;
`streamlit_app.py` lines 118-120 renders a no-data notice). -/
def emptyOutputs : Outputs :=
  { filtered := []
    total_responses := 0
    total_closed_amount := 0
    by_bde := []
    by_plan := []
    by_day := []
    due_today := []
    due_within := [] }

/-- The row predicate a dropdown selection induces (`ALL`: no constraint;
otherwise equality of the cell's string value with the selection, which a
null cell never satisfies). -/
def selPred (sel : Sel) (c : Cell) : Bool :=
  match sel with
  | .all => true
  | .only s => decide (strVal? c = some s)

/-- The row predicate the date-range input induces, including the code's
guard: with no range, or with the `Timestamp` column absent (in which
case `streamlit_app.py` line 165 silently skips the filter), every row
passes; otherwise the inclusive range check on the date component. -/
def drPred (t : Table) (dr : Option (Int × Int)) (r : Row) : Bool :=
  match dr with
  | none => true
  | some p => if colTimestamp ∈ t.headers then drMatch p r else true

/-- The spec-side date-range predicate: with no range every row passes;
with a range, inclusive membership of the timestamp's date component
(equal to `drPred` whenever the `Timestamp` column is present). -/
def claimDatePred (dr : Option (Int × Int)) (r : Row) : Bool :=
  match dr with
  | none => true
  | some p => drMatch p r

/-- A cell as produced by `pd.read_csv`: raw text or NaN. -/
def isRawCell : Cell → Bool
  | .str _ => true
  | .na => true
  | _ => false

/-- A row as produced by `pd.read_csv`: every cell raw. -/
def isRawRow (r : Row) : Bool :=
  isRawCell r.timestamp && isRawCell r.bdeName && isRawCell r.plan &&
  isRawCell r.companyName && isRawCell r.mobileNo && isRawCell r.closedAmount &&
  isRawCell r.expectedClosure

/-- A table as produced by `pd.read_csv`: every row raw. -/
def isRawTable (t : Table) : Bool := t.rows.all isRawRow

/-- One end-to-end pipeline run (`streamlit_app.py` `main`, lines 113-312,
which subsumes `app.py` `update_dashboard`): load, early-return on an
empty frame, filter, then compute all derived outputs.  `today` is the
call-time `pd.Timestamp.now().normalize()` of the closure buckets.  An
uncaught `KeyError` in the filter or by-BDE stage aborts the run.  (The
purely presentational EOD-image section is out of scope.) -/
def mainPipeline (pdt : String → Option DT) (fetch : Except String Table)
    (bde plan : Sel) (dr : Option (Int × Int)) (today : Int) : Except String Outputs :=
  if (load_data pdt fetch).rows.isEmpty then .ok emptyOutputs else
  match filterTable (load_data pdt fetch) bde plan dr with
  | .error e => .error e
  | .ok t =>
    match byBdeAgg t with
    | .error e => .error e
    | .ok bb =>
      .ok { filtered := t.rows
            total_responses := total_responses t
            total_closed_amount := totalClosedAmount t
            by_bde := bb
            by_plan := byPlanAgg t
            by_day := byDayAgg t
            due_today := dueToday t today
            due_within := dueWithin7 t today }

/-! Concrete inputs used to instantiate the theorems below. -/

/-- A trivial instance of the external date parser (nothing parses). -/
def pdt0 : String → Option DT := fun _ => none

/-- A date parser instance mapping a few tokens to concrete days. -/
def pdtDays : String → Option DT := fun s =>
  if s == "d0" then some { day := 0, tod := 9 }
  else if s == "d1" then some { day := 1, tod := 0 }
  else none

/-- Row constructor shorthand (display-only columns left missing). -/
def mkRow (ts bde plan amt ecd : Cell) : Row :=
  { timestamp := ts
    bdeName := bde
    plan := plan
    companyName := Cell.na
    mobileNo := Cell.na
    closedAmount := amt
    expectedClosure := ecd }

/-- The three-row source table of the spec's scenario: (A, X, "1200"),
(A, Y, "bad"), (B, X, "300"). -/
def tScenario : Table :=
  { headers := ["BDE NAME", "PLAN", "CLOSED AMOUNT"]
    rows := [ mkRow Cell.na (Cell.str ("A")) (Cell.str ("X")) (Cell.str ("1200")) Cell.na
            , mkRow Cell.na (Cell.str ("A")) (Cell.str ("Y")) (Cell.str ("bad")) Cell.na
            , mkRow Cell.na (Cell.str ("B")) (Cell.str ("X")) (Cell.str ("300")) Cell.na ] }

/-- A nonempty table whose `BDE NAME` column is absent. -/
def tNoBde : Table :=
  { headers := ["PLAN"]
    rows := [ mkRow Cell.na Cell.na (Cell.str ("X")) Cell.na Cell.na ] }

/-- A nonempty table with one negative-amount cell. -/
def tNeg : Table :=
  { headers := ["CLOSED AMOUNT"]
    rows := [ mkRow Cell.na Cell.na Cell.na (Cell.str ("-100")) Cell.na ] }

/-- A normalized table with all recognized columns, two dated rows and one
null-timestamp row; closure dates at days 0, 7 and 8. -/
def tFull : Table :=
  { headers := ["Timestamp", "BDE NAME", "PLAN", "CLOSED AMOUNT", "Expected Closure Date"]
    rows := [ mkRow (Cell.dt (some { day := 3, tod := 5 })) (Cell.str ("A")) (Cell.str ("X"))
                (Cell.num 10) (Cell.dt (some { day := 0, tod := 2 }))
            , mkRow (Cell.dt (some { day := 1, tod := 0 })) (Cell.str ("A")) (Cell.str ("Y"))
                (Cell.num 20) (Cell.dt (some { day := 7, tod := 0 }))
            , mkRow (Cell.dt none) (Cell.str ("B")) (Cell.str ("X"))
                (Cell.num 30) (Cell.dt (some { day := 8, tod := 0 })) ] }

/-- A nonempty table carrying only the BDE and amount columns. -/
def tBdeAmt : Table :=
  { headers := ["BDE NAME", "CLOSED AMOUNT"]
    rows := [ mkRow Cell.na (Cell.str ("A")) Cell.na (Cell.str ("500")) Cell.na ] }

/-- The outputs the pipeline produces on `tNeg` with ALL selections. -/
def outsNeg : Outputs :=
  { filtered := [ mkRow Cell.na Cell.na Cell.na (Cell.num (-100)) Cell.na ]
    total_responses := 1
    total_closed_amount := -100
    by_bde := []
    by_plan := []
    by_day := []
    due_today := []
    due_within := [] }

/-- A normalized table of four dated rows with duplicate and out-of-order
dates, none null. -/
def tScenario7 : Table :=
  { headers := ["Timestamp"]
    rows := [ mkRow (Cell.dt (some { day := 3, tod := 5 })) Cell.na Cell.na Cell.na Cell.na
            , mkRow (Cell.dt (some { day := 1, tod := 0 })) Cell.na Cell.na Cell.na Cell.na
            , mkRow (Cell.dt (some { day := 3, tod := 0 })) Cell.na Cell.na Cell.na Cell.na
            , mkRow (Cell.dt (some { day := 2, tod := 0 })) Cell.na Cell.na Cell.na Cell.na ] }

/-- A raw table exercising the normalizer: padded header, parsable and
unparsable dates and amounts, missing cells. -/
def tRaw : Table :=
  { headers := ["  Timestamp ", "BDE NAME", "CLOSED AMOUNT", "Expected Closure Date"]
    rows := [ mkRow (Cell.str ("d0")) (Cell.str ("A")) Cell.na (Cell.str ("1200")) (Cell.str ("d1"))
            , mkRow (Cell.str ("junk")) Cell.na Cell.na (Cell.str ("bad")) Cell.na ] }

/-! Helper lemmas. -/

theorem dropWhile_idem {α : Type} (p : α → Bool) (l : List α) :
    (l.dropWhile p).dropWhile p = l.dropWhile p := by
  induction l with
  | nil => rfl
  | cons x xs ih =>
    by_cases h : p x
    · simp [List.dropWhile_cons, h, ih]
    · simp [List.dropWhile_cons, h]

theorem dropWhile_head_not {α : Type} (p : α → Bool) (l : List α) (x : α) (xs : List α)
    (h : l.dropWhile p = x :: xs) : p x = false := by
  induction l with
  | nil => simp at h
  | cons a l ih =>
    rw [List.dropWhile_cons] at h
    by_cases ha : p a
    · exact ih (by simpa [ha] using h)
    · obtain ⟨rfl, -⟩ : a = x ∧ l = xs := by simpa [ha] using h
      simpa using ha

theorem trimChars_idem (cs : List Char) : trimChars (trimChars cs) = trimChars cs := by
  unfold trimChars
  generalize hA : cs.dropWhile isSpaceChar = A
  generalize hC : A.reverse.dropWhile isSpaceChar = C
  have hCidem : C.dropWhile isSpaceChar = C := by
    rw [← hC]; exact dropWhile_idem _ _
  have hAidem : A.dropWhile isSpaceChar = A := by
    rw [← hA]; exact dropWhile_idem _ _
  obtain ⟨D, hsplit⟩ : ∃ D, A = C.reverse ++ D := by
    refine ⟨(A.reverse.takeWhile isSpaceChar).reverse, ?_⟩
    have h1 : A.reverse.takeWhile isSpaceChar ++ C = A.reverse := by
      rw [← hC]; exact List.takeWhile_append_dropWhile _ _
    have h2 := congrArg List.reverse h1
    simpa [List.reverse_append] using h2.symm
  match hrev : C.reverse with
  | [] => simp
  | b :: B =>
    have hpb : isSpaceChar b = false := by
      apply dropWhile_head_not isSpaceChar A b (B ++ D)
      rw [hAidem, hsplit, hrev]; simp
    have hbC : C.reverse.dropWhile isSpaceChar = C.reverse := by
      rw [hrev, List.dropWhile_cons, hpb]; simp
    rw [← hrev, hbC, List.reverse_reverse, hCidem]

theorem stripName_idem (s : String) : stripName (stripName s) = stripName s := by
  unfold stripName
  exact congrArg String.mk (trimChars_idem s.data)

theorem mem_insSorted (d x : Int) (l : List Int) : x ∈ insSorted d l ↔ x = d ∨ x ∈ l := by
  induction l with
  | nil => simp [insSorted]
  | cons a l ih =>
    by_cases h1 : d < a
    · simp [insSorted, h1]
    · by_cases h2 : d = a
      · subst h2; simp [insSorted, h1]
      · simp [insSorted, h1, h2, ih]
        tauto

theorem pairwise_insSorted (d : Int) (l : List Int) (h : l.Pairwise (· < ·)) :
    (insSorted d l).Pairwise (· < ·) := by
  induction l with
  | nil => simp [insSorted]
  | cons a l ih =>
    rw [List.pairwise_cons] at h
    obtain ⟨ha, hl⟩ := h
    by_cases h1 : d < a
    · rw [insSorted]
      simp only [h1, if_pos]
      refine List.Pairwise.cons ?_ (List.Pairwise.cons ha hl)
      intro b hb
      rcases List.mem_cons.mp hb with rfl | hb
      · exact h1
      · exact lt_trans h1 (ha b hb)
    · by_cases h2 : d = a
      · subst h2
        rw [insSorted]
        simp only [h1, if_neg, not_false_iff, if_pos]
        exact List.Pairwise.cons ha hl
      · rw [insSorted]
        simp only [h1, h2, if_neg, not_false_iff]
        refine List.Pairwise.cons ?_ (ih hl)
        intro b hb
        rcases (mem_insSorted d b l).mp hb with rfl | hb
        · omega
        · exact ha b hb

theorem insSorted_mem_eq (d : Int) (l : List Int) (h : l.Pairwise (· < ·)) (hd : d ∈ l) :
    insSorted d l = l := by
  induction l with
  | nil => simp at hd
  | cons a l ih =>
    rw [List.pairwise_cons] at h
    obtain ⟨ha, hl⟩ := h
    rcases List.mem_cons.mp hd with rfl | hd
    · rw [insSorted]; simp
    · have h1 : ¬ d < a := by have := ha d hd; omega
      have h2 : d ≠ a := by have := ha d hd; omega
      rw [insSorted]
      simp only [h1, h2, if_neg, not_false_iff]
      rw [ih hl hd]

theorem pairwise_sortedKeys (l : List Int) : (sortedKeys l).Pairwise (· < ·) := by
  induction l with
  | nil => simp [sortedKeys]
  | cons a l ih => exact pairwise_insSorted a _ ih

theorem mem_sortedKeys (x : Int) (l : List Int) : x ∈ sortedKeys l ↔ x ∈ l := by
  induction l with
  | nil => simp [sortedKeys]
  | cons a l ih =>
    show x ∈ insSorted a (sortedKeys l) ↔ _
    rw [mem_insSorted, ih]
    simp

theorem countInt_cons (d a : Int) (l : List Int) :
    countInt d (a :: l) = countInt d l + if a = d then 1 else 0 := by
  unfold countInt
  rw [List.filter_cons]
  by_cases h : a = d
  · simp [h]
  · simp [h]

theorem countInt_eq_zero (d : Int) (l : List Int) (h : d ∉ l) : countInt d l = 0 := by
  unfold countInt
  rw [List.length_eq_zero]
  rw [List.filter_eq_nil_iff]
  intro a ha
  simp only [beq_iff_eq]
  intro had
  exact h (had ▸ ha)

theorem sumCounts_cons_not_mem (a : Int) (K l : List Int) (h : a ∉ K) :
    (K.map (fun d => countInt d (a :: l))).sum = (K.map (fun d => countInt d l)).sum := by
  induction K with
  | nil => simp
  | cons k K ih =>
    simp only [List.map_cons, List.sum_cons]
    have hk : k ≠ a := fun hk => h (hk ▸ List.mem_cons_self k K)
    rw [countInt_cons]
    simp only [hk.symm, if_neg, not_false_iff]
    rw [ih (fun hm => h (List.mem_cons_of_mem k hm))]
    omega

theorem sumCounts_cons_mem (a : Int) (K l : List Int) (hp : K.Pairwise (· < ·)) (h : a ∈ K) :
    (K.map (fun d => countInt d (a :: l))).sum = (K.map (fun d => countInt d l)).sum + 1 := by
  induction K with
  | nil => simp at h
  | cons k K ih =>
    rw [List.pairwise_cons] at hp
    obtain ⟨hk, hK⟩ := hp
    simp only [List.map_cons, List.sum_cons]
    rcases List.mem_cons.mp h with rfl | h
    · have hnot : a ∉ K := fun hm => absurd (hk a hm) (lt_irrefl a)
      rw [countInt_cons]
      simp only [if_pos]
      rw [sumCounts_cons_not_mem a K l hnot]
      omega
    · have hka : k ≠ a := fun he => absurd (hk a h) (by omega)
      rw [countInt_cons]
      simp only [hka.symm, if_neg, not_false_iff]
      rw [ih hK h]
      omega

theorem sumCounts_insSorted_not_mem (a : Int) (K m : List Int) (h : a ∉ K) :
    ((insSorted a K).map (fun d => countInt d m)).sum
      = countInt a m + (K.map (fun d => countInt d m)).sum := by
  induction K with
  | nil => simp [insSorted]
  | cons k K ih =>
    by_cases h1 : a < k
    · rw [insSorted]; simp [h1]
    · have h2 : a ≠ k := fun he => h (he ▸ List.mem_cons_self k K)
      rw [insSorted]
      simp only [h1, h2, if_neg, not_false_iff]
      simp only [List.map_cons, List.sum_cons]
      rw [ih (fun hm => h (List.mem_cons_of_mem k hm))]
      omega

theorem sumCounts_sortedKeys (l : List Int) :
    ((sortedKeys l).map (fun d => countInt d l)).sum = l.length := by
  induction l with
  | nil => simp [sortedKeys]
  | cons a l ih =>
    show ((insSorted a (sortedKeys l)).map (fun d => countInt d (a :: l))).sum = _
    by_cases h : a ∈ sortedKeys l
    · rw [insSorted_mem_eq a _ (pairwise_sortedKeys l) h]
      rw [sumCounts_cons_mem a _ l (pairwise_sortedKeys l) h, ih]
      simp
    · rw [sumCounts_insSorted_not_mem a _ (a :: l) h]
      rw [sumCounts_cons_not_mem a _ l h]
      have ha : a ∉ l := fun hm => h ((mem_sortedKeys a l).mpr hm)
      rw [countInt_cons]
      simp only [if_pos]
      rw [countInt_eq_zero a l ha, ih]
      simp only [List.length_cons]
      omega

theorem applyBde_ok (t : Table) (bde : Sel) (t1 : Table) (h : applyBde t bde = .ok t1) :
    t1.headers = t.headers ∧ t1.rows = t.rows.filter (fun r => selPred bde r.bdeName) := by
  cases bde with
  | all =>
    obtain rfl : t = t1 := by simpa [applyBde] using h
    simp [selPred]
  | only s =>
    by_cases hm : colBde ∈ t.headers
    · rw [applyBde] at h
      simp only [hm, if_pos] at h
      obtain rfl : _ = t1 := by simpa using h
      simp [selPred]
    · rw [applyBde] at h
      simp [hm] at h

theorem applyPlan_ok (t : Table) (plan : Sel) (t1 : Table) (h : applyPlan t plan = .ok t1) :
    t1.headers = t.headers ∧ t1.rows = t.rows.filter (fun r => selPred plan r.plan) := by
  cases plan with
  | all =>
    obtain rfl : t = t1 := by simpa [applyPlan] using h
    simp [selPred]
  | only s =>
    by_cases hm : colPlan ∈ t.headers
    · rw [applyPlan] at h
      simp only [hm, if_pos] at h
      obtain rfl : _ = t1 := by simpa using h
      simp [selPred]
    · rw [applyPlan] at h
      simp [hm] at h

theorem applyDate_eq (t : Table) (dr : Option (Int × Int)) :
    (applyDate t dr).headers = t.headers
      ∧ (applyDate t dr).rows = t.rows.filter (fun r => drPred t dr r) := by
  cases dr with
  | none => simp [applyDate, drPred]
  | some p =>
    by_cases hm : colTimestamp ∈ t.headers
    · simp [applyDate, drPred, hm]
    · simp [applyDate, drPred, hm]

theorem filterTable_ok (t : Table) (bde plan : Sel) (dr : Option (Int × Int)) (t' : Table)
    (h : filterTable t bde plan dr = .ok t') :
    t'.headers = t.headers
      ∧ t'.rows = t.rows.filter
          (fun r => selPred bde r.bdeName && selPred plan r.plan && drPred t dr r) := by
  rw [filterTable] at h
  cases hb : applyBde t bde with
  | error e =>
    simp only [hb] at h
    exact absurd h (by simp)
  | ok t1 =>
    simp only [hb] at h
    cases hp : applyPlan t1 plan with
    | error e =>
      simp only [hp] at h
      exact absurd h (by simp)
    | ok t2 =>
      simp only [hp] at h
      obtain rfl : applyDate t2 dr = t' := by simpa using h
      obtain ⟨hb1, hb2⟩ := applyBde_ok t bde t1 hb
      obtain ⟨hp1, hp2⟩ := applyPlan_ok t1 plan t2 hp
      obtain ⟨hd1, hd2⟩ := applyDate_eq t2 dr
      have hdr : ∀ r : Row, drPred t2 dr r = drPred t dr r := by
        intro r
        unfold drPred
        cases dr with
        | none => rfl
        | some p => rw [hp1, hb1]
      constructor
      · rw [hd1, hp1, hb1]
      · rw [hd2, hp2, hb2, List.filter_filter, List.filter_filter]
        apply List.filter_congr
        intro r _
        rw [hdr r]
        cases hx : selPred bde r.bdeName <;>
          cases hy : selPred plan r.plan <;>
            cases hz : drPred t dr r <;> rfl

theorem applyBde_eq (t : Table) (bde : Sel) (hb : bde ≠ Sel.all → colBde ∈ t.headers) :
    applyBde t bde
      = .ok { headers := t.headers, rows := t.rows.filter (fun r => selPred bde r.bdeName) } := by
  cases bde with
  | all =>
    rw [applyBde]
    congr 1
    cases t with
    | mk hs rs => simp [selPred]
  | only s =>
    have hm : colBde ∈ t.headers := hb (by simp)
    rw [applyBde]
    simp only [hm, if_pos]
    rfl

theorem applyPlan_eq (t : Table) (plan : Sel) (hp : plan ≠ Sel.all → colPlan ∈ t.headers) :
    applyPlan t plan
      = .ok { headers := t.headers, rows := t.rows.filter (fun r => selPred plan r.plan) } := by
  cases plan with
  | all =>
    rw [applyPlan]
    congr 1
    cases t with
    | mk hs rs => simp [selPred]
  | only s =>
    have hm : colPlan ∈ t.headers := hp (by simp)
    rw [applyPlan]
    simp only [hm, if_pos]
    rfl

theorem filterTable_eq (t : Table) (bde plan : Sel) (dr : Option (Int × Int))
    (hb : bde ≠ Sel.all → colBde ∈ t.headers) (hp : plan ≠ Sel.all → colPlan ∈ t.headers) :
    filterTable t bde plan dr
      = .ok { headers := t.headers
              rows := t.rows.filter
                (fun r => selPred bde r.bdeName && selPred plan r.plan && drPred t dr r) } := by
  cases hres : filterTable t bde plan dr with
  | error e =>
    exfalso
    rw [filterTable] at hres
    simp only [applyBde_eq t bde hb] at hres
    simp only [applyPlan_eq
      { headers := t.headers, rows := t.rows.filter (fun r => selPred bde r.bdeName) }
      plan (fun hne => hp hne)] at hres
    exact absurd hres (by simp)
  | ok t' =>
    obtain ⟨h1, h2⟩ := filterTable_ok t bde plan dr t' hres
    congr 1
    cases t' with
    | mk hs rs =>
      simp only at h1 h2
      rw [h1, h2]

theorem filterMap_length_all_some {α β : Type} (f : α → Option β) (l : List α)
    (h : ∀ a ∈ l, (f a).isSome = true) : (l.filterMap f).length = l.length := by
  induction l with
  | nil => rfl
  | cons a l ih =>
    have ha : (f a).isSome = true := h a (List.mem_cons_self a l)
    obtain ⟨b, hb⟩ := Option.isSome_iff_exists.mp ha
    rw [List.filterMap_cons, hb]
    simp only [List.length_cons]
    rw [ih (fun x hx => h x (List.mem_cons_of_mem a hx))]

theorem parseDateCell_idem (pdt : String → Option DT) (c : Cell) :
    parseDateCell pdt (parseDateCell pdt c) = parseDateCell pdt c := by
  cases c <;> rfl

theorem parseNumCell_idem (c : Cell) :
    parseNumCell (parseNumCell c) = parseNumCell c := by
  cases c <;> rfl

theorem normRow_closedAmount (pdt : String → Option DT) (hs : List String) (r : Row)
    (h : colAmount ∈ hs) :
    (normRow pdt hs r).closedAmount = parseNumCell r.closedAmount := by
  unfold normRow
  by_cases h1 : colTimestamp ∈ hs <;> by_cases h2 : colClosure ∈ hs <;> simp [h1, h2, h]

theorem normRow_closedAmount_not_mem (pdt : String → Option DT) (hs : List String) (r : Row)
    (h : colAmount ∉ hs) :
    (normRow pdt hs r).closedAmount = r.closedAmount := by
  unfold normRow
  by_cases h1 : colTimestamp ∈ hs <;> by_cases h2 : colClosure ∈ hs <;> simp [h1, h2, h]

theorem normRow_idem (pdt : String → Option DT) (hs : List String) (r : Row) :
    normRow pdt hs (normRow pdt hs r) = normRow pdt hs r := by
  unfold normRow
  by_cases h1 : colTimestamp ∈ hs <;> by_cases h2 : colClosure ∈ hs <;>
    by_cases h3 : colAmount ∈ hs <;>
      simp [h1, h2, h3, parseDateCell_idem, parseNumCell_idem]

theorem mem_dueToday_iff (t : Table) (today : Int) (x : Row) (hE : colClosure ∈ t.headers) :
    x ∈ dueToday t today ↔ x ∈ t.rows ∧ closureDay? x = some today := by
  unfold dueToday
  rw [if_pos hE, List.mem_filter]
  simp

theorem mem_dueWithin7_iff (t : Table) (today : Int) (x : Row) (hE : colClosure ∈ t.headers) :
    x ∈ dueWithin7 t today
      ↔ x ∈ t.rows ∧ ∃ d, closureDay? x = some d ∧ today < d ∧ d ≤ today + 7 := by
  unfold dueWithin7
  rw [if_pos hE, List.mem_filter]
  cases h : closureDay? x with
  | none => simp [h]
  | some d => simp [h]

theorem cellNum_of_raw (c : Cell) (h : isRawCell c = true) : cellNum c = 0 := by
  cases c with
  | na => rfl
  | str s => rfl
  | dt d => exact absurd h (by simp [isRawCell])
  | num q => exact absurd h (by simp [isRawCell])

theorem isRawRow_closedAmount (r : Row) (h : isRawRow r = true) :
    isRawCell r.closedAmount = true := by
  unfold isRawRow at h
  simp only [Bool.and_eq_true] at h
  exact h.1.2

theorem byBdeAgg_ok_cases (t : Table)
    (hc : colBde ∈ t.headers → t.rows ≠ [] → colAmount ∈ t.headers) :
    ∃ bb, byBdeAgg t = .ok bb ∧ (colBde ∉ t.headers → bb = []) := by
  by_cases hBde : colBde ∈ t.headers
  · by_cases hne : t.rows = []
    · refine ⟨[], ?_, fun _ => rfl⟩
      unfold byBdeAgg
      rw [if_neg (fun hg => hg.2 hne)]
    · have hA : colAmount ∈ t.headers := hc hBde hne
      refine ⟨(bdeList t).dedup.map (fun b =>
          (b, (t.rows.filter (fun r => decide (strVal? r.bdeName = some b))).length,
              ((t.rows.filter (fun r => decide (strVal? r.bdeName = some b))).map
                (fun r => cellNum r.closedAmount)).sum)), ?_, fun h => absurd hBde h⟩
      unfold byBdeAgg
      rw [if_pos ⟨hBde, hne⟩, if_pos hA]
  · refine ⟨[], ?_, fun _ => rfl⟩
    unfold byBdeAgg
    rw [if_neg (fun hg => hBde hg.1)]

/-! Claim theorems. -/

/-- C1: for every normalized table and filter selection (columns referenced
by a non-ALL selection, and the `Timestamp` column when a range is active,
being present), the filtered row set is exactly the rows satisfying the
conjunction of the active predicates — `bde_name` equality when the BDE
selection is not ALL, `plan` equality when the Plan selection is not ALL,
inclusive date-component range membership when a range is supplied, ALL
imposing no predicate — and `total_responses` is the count of that set. -/
theorem C1_filter_conjunction (t : Table) (bde plan : Sel) (dr : Option (Int × Int))
    (hb : bde ≠ Sel.all → colBde ∈ t.headers)
    (hp : plan ≠ Sel.all → colPlan ∈ t.headers)
    (hd : dr ≠ none → colTimestamp ∈ t.headers) :
    filterTable t bde plan dr
      = .ok { headers := t.headers
              rows := t.rows.filter
                (fun r => selPred bde r.bdeName && selPred plan r.plan && claimDatePred dr r) }
    ∧ total_responses
        { headers := t.headers
          rows := t.rows.filter
            (fun r => selPred bde r.bdeName && selPred plan r.plan && claimDatePred dr r) }
      = (t.rows.filter
          (fun r => selPred bde r.bdeName && selPred plan r.plan && claimDatePred dr r)).length := by
  refine ⟨?_, rfl⟩
  rw [filterTable_eq t bde plan dr hb hp]
  congr 2
  apply List.filter_congr
  intro r _
  have hdr : drPred t dr r = claimDatePred dr r := by
    cases dr with
    | none => rfl
    | some p =>
      have hm : colTimestamp ∈ t.headers := hd (by simp)
      simp [drPred, claimDatePred, hm]
  rw [hdr]

/-- C1 witness: the theorem instantiated at a concrete table with all
three predicates active. -/
theorem C1_filter_conjunction_witness :
    ((Sel.only ("A") ≠ Sel.all → colBde ∈ tFull.headers)
      ∧ (Sel.only ("X") ≠ Sel.all → colPlan ∈ tFull.headers)
      ∧ ((some ((0 : Int), (5 : Int)) : Option (Int × Int)) ≠ none → colTimestamp ∈ tFull.headers))
    ∧ (filterTable tFull (Sel.only ("A")) (Sel.only ("X")) (some ((0 : Int), (5 : Int)))
        = .ok { headers := tFull.headers
                rows := tFull.rows.filter
                  (fun r => selPred (Sel.only ("A")) r.bdeName && selPred (Sel.only ("X")) r.plan &&
                    claimDatePred (some ((0 : Int), (5 : Int))) r) }
      ∧ total_responses
          { headers := tFull.headers
            rows := tFull.rows.filter
              (fun r => selPred (Sel.only ("A")) r.bdeName && selPred (Sel.only ("X")) r.plan &&
                claimDatePred (some ((0 : Int), (5 : Int))) r) }
        = (tFull.rows.filter
            (fun r => selPred (Sel.only ("A")) r.bdeName && selPred (Sel.only ("X")) r.plan &&
              claimDatePred (some ((0 : Int), (5 : Int))) r)).length) :=
  ⟨⟨fun _ => by decide, fun _ => by decide, fun _ => by decide⟩,
    C1_filter_conjunction tFull (Sel.only ("A")) (Sel.only ("X")) (some ((0 : Int), (5 : Int)))
      (fun _ => by decide) (fun _ => by decide) (fun _ => by decide)⟩

/-- C2: on the three-row scenario table, filtering by BDE = A with Plan =
ALL yields 2 responses, a closed-amount total of 1200 (the unparsable
"bad" contributing 0), and a by-Plan aggregate mapping X to 1 and Y to 1. -/
theorem C2_scenario :
    (mainPipeline pdt0 (.ok tScenario) (Sel.only ("A")) Sel.all none 0).map Outputs.total_responses
      = .ok 2
    ∧ (mainPipeline pdt0 (.ok tScenario) (Sel.only ("A")) Sel.all none 0).map Outputs.total_closed_amount
      = .ok 1200
    ∧ (mainPipeline pdt0 (.ok tScenario) (Sel.only ("A")) Sel.all none 0).map Outputs.by_plan
      = .ok [("X", 1), ("Y", 1)] :=
  ⟨rfl, by rfl, rfl⟩

/-- C3: when the fetch raises, the Loader returns the empty table, the
pipeline completes without an escaping exception, and every metric is the
zero of the empty run (`total_responses = 0`, `total_closed_amount = 0`). -/
theorem C3_fail_soft (pdt : String → Option DT) (e : String) (bde plan : Sel)
    (dr : Option (Int × Int)) (today : Int) :
    load_data pdt (.error e) = emptyTable
    ∧ mainPipeline pdt (.error e) bde plan dr today = .ok emptyOutputs
    ∧ emptyOutputs.total_responses = 0
    ∧ emptyOutputs.total_closed_amount = 0 :=
  ⟨rfl, rfl, rfl, rfl⟩

/-- C4 counterexample: a nonempty table whose `BDE NAME` column is absent,
filtered with a non-ALL BDE selection, raises a `KeyError` (the run aborts
with an error), contradicting the claim that no exception is raised. -/
theorem C4_counterexample :
    mainPipeline pdt0 (.ok tNoBde) (Sel.only ("A")) Sel.all none 0 = .error keyErrBde := rfl

/-- C5 counterexample: a table whose only amount cell is the parsable
string "-100" yields a negative `total_closed_amount`, contradicting the
claimed unconditional non-negativity. -/
theorem C5_counterexample :
    (mainPipeline pdt0 (.ok tNeg) Sel.all Sel.all none 0).map Outputs.total_closed_amount
      = .ok (-100)
    ∧ ((-100 : Int) < 0) :=
  ⟨by rfl, by decide⟩

/-- C6: with the closure column present, a filtered row whose normalized
expected-closure date equals the current date is in `due_today` and not in
`due_within_7_days`; a row exactly 7 days out is in `due_within_7_days`; a
row 8 days out is in neither; and `due_within_7_days` holds exactly the
rows with current date < closure date <= current date + 7. -/
theorem C6_closure_buckets (t : Table) (today : Int) (r : Row)
    (hE : colClosure ∈ t.headers) (hr : r ∈ t.rows) :
    (closureDay? r = some today → r ∈ dueToday t today ∧ r ∉ dueWithin7 t today)
    ∧ (closureDay? r = some (today + 7) → r ∈ dueWithin7 t today)
    ∧ (closureDay? r = some (today + 8) → r ∉ dueToday t today ∧ r ∉ dueWithin7 t today)
    ∧ (r ∈ dueWithin7 t today
        ↔ ∃ d, closureDay? r = some d ∧ today < d ∧ d ≤ today + 7) := by
  refine ⟨?_, ?_, ?_, ?_⟩
  · intro h
    constructor
    · exact (mem_dueToday_iff t today r hE).mpr ⟨hr, h⟩
    · intro hmem
      obtain ⟨-, d, hd, h1, h2⟩ := (mem_dueWithin7_iff t today r hE).mp hmem
      rw [h] at hd
      obtain rfl : today = d := Option.some.inj hd
      omega
  · intro h
    exact (mem_dueWithin7_iff t today r hE).mpr ⟨hr, today + 7, h, by omega, by omega⟩
  · intro h
    constructor
    · intro hmem
      obtain ⟨-, hd⟩ := (mem_dueToday_iff t today r hE).mp hmem
      rw [h] at hd
      obtain heq : today + 8 = today := Option.some.inj hd
      omega
    · intro hmem
      obtain ⟨-, d, hd, h1, h2⟩ := (mem_dueWithin7_iff t today r hE).mp hmem
      rw [h] at hd
      obtain rfl : today + 8 = d := Option.some.inj hd
      omega
  · rw [mem_dueWithin7_iff t today r hE]
    simp [hr]

/-- C6 witness: the theorem instantiated at the concrete table whose rows
have closure dates exactly 0, 7 and 8 days out from day 0. -/
theorem C6_closure_buckets_witness :
    (colClosure ∈ tFull.headers ∧ tFull.rows.get ⟨0, by decide⟩ ∈ tFull.rows)
    ∧ ((closureDay? (tFull.rows.get ⟨0, by decide⟩) = some 0
          → tFull.rows.get ⟨0, by decide⟩ ∈ dueToday tFull 0
            ∧ tFull.rows.get ⟨0, by decide⟩ ∉ dueWithin7 tFull 0)
      ∧ (closureDay? (tFull.rows.get ⟨0, by decide⟩) = some (0 + 7)
          → tFull.rows.get ⟨0, by decide⟩ ∈ dueWithin7 tFull 0)
      ∧ (closureDay? (tFull.rows.get ⟨0, by decide⟩) = some (0 + 8)
          → tFull.rows.get ⟨0, by decide⟩ ∉ dueToday tFull 0
            ∧ tFull.rows.get ⟨0, by decide⟩ ∉ dueWithin7 tFull 0)
      ∧ (tFull.rows.get ⟨0, by decide⟩ ∈ dueWithin7 tFull 0
          ↔ ∃ d, closureDay? (tFull.rows.get ⟨0, by decide⟩) = some d ∧ 0 < d ∧ d ≤ 0 + 7)) :=
  ⟨⟨by decide, by decide⟩,
    C6_closure_buckets tFull 0 (tFull.rows.get ⟨0, by decide⟩) (by decide) (by decide)⟩

/-- C7: the by-day aggregate has one entry per distinct calendar date of
the rows' timestamps, its dates are strictly ascending with no duplicates,
and when every row's timestamp carries a date (none is null) its counts
sum to `total_responses`. -/
theorem C7_by_day (t : Table) (hT : colTimestamp ∈ t.headers) :
    List.Chain' (· < ·) ((byDayAgg t).map Prod.fst)
    ∧ ((byDayAgg t).map Prod.fst).Nodup
    ∧ (∀ d : Int, d ∈ (byDayAgg t).map Prod.fst ↔ d ∈ dayList t)
    ∧ ((∀ r ∈ t.rows, (dayVal? r.timestamp).isSome = true)
        → ((byDayAgg t).map Prod.snd).sum = total_responses t) := by
  by_cases hne : t.rows = []
  · have hagg : byDayAgg t = [] := by
      unfold byDayAgg
      rw [if_neg]
      simp [hne]
    have hday : dayList t = [] := by
      unfold dayList
      rw [hne]
      rfl
    rw [hagg, hday]
    simp [total_responses, hne]
  · have hagg : byDayAgg t
        = (sortedKeys (dayList t)).map (fun d => (d, countInt d (dayList t))) := by
      unfold byDayAgg
      rw [if_pos ⟨hT, hne⟩]
    have hfst : (byDayAgg t).map Prod.fst = sortedKeys (dayList t) := by
      rw [hagg, List.map_map]
      conv_rhs => rw [← List.map_id (sortedKeys (dayList t))]
      apply List.map_congr_left
      intro d _
      rfl
    refine ⟨?_, ?_, ?_, ?_⟩
    · rw [hfst]
      exact (pairwise_sortedKeys (dayList t)).chain'
    · rw [hfst]
      exact (pairwise_sortedKeys (dayList t)).imp (fun h => ne_of_lt h)
    · intro d
      rw [hfst]
      exact mem_sortedKeys d (dayList t)
    · intro hall
      have hsnd : (byDayAgg t).map Prod.snd
          = (sortedKeys (dayList t)).map (fun d => countInt d (dayList t)) := by
        rw [hagg, List.map_map]
        rfl
      rw [hsnd, sumCounts_sortedKeys]
      unfold dayList
      exact filterMap_length_all_some _ _ hall

/-- C7 witness: the theorem instantiated at a table with duplicate and
out-of-order dates, all non-null. -/
theorem C7_by_day_witness :
    (colTimestamp ∈ tScenario7.headers)
    ∧ (List.Chain' (· < ·) ((byDayAgg tScenario7).map Prod.fst)
      ∧ ((byDayAgg tScenario7).map Prod.fst).Nodup
      ∧ (∀ d : Int, d ∈ (byDayAgg tScenario7).map Prod.fst ↔ d ∈ dayList tScenario7)
      ∧ ((∀ r ∈ tScenario7.rows, (dayVal? r.timestamp).isSome = true)
          → ((byDayAgg tScenario7).map Prod.snd).sum = total_responses tScenario7)) :=
  ⟨by decide, C7_by_day tScenario7 (by decide)⟩

/-- C8: with the `CLOSED AMOUNT` column present (post-strip), the
Normalizer parses every cell of that column to a number: no row is
dropped, every normalized cell is `num` (never null), an absent (NaN) or
unparsable cell becomes exactly 0, and a parsable cell its value. -/
theorem C8_amount_parsing (pdt : String → Option DT) (t : Table)
    (hC : colAmount ∈ t.headers.map stripName) :
    (normalize pdt t).rows.length = t.rows.length
    ∧ (∀ nr ∈ (normalize pdt t).rows, ∃ q : Int, nr.closedAmount = Cell.num q)
    ∧ (∀ r ∈ t.rows,
        ((r.closedAmount = Cell.na ∨ ∃ s, r.closedAmount = Cell.str s ∧ parseNum s = none)
          → (normRow pdt (t.headers.map stripName) r).closedAmount = Cell.num 0)
        ∧ (∀ s q, r.closedAmount = Cell.str s → parseNum s = some q
          → (normRow pdt (t.headers.map stripName) r).closedAmount = Cell.num q)) := by
  refine ⟨by simp [normalize], ?_, ?_⟩
  · intro nr hnr
    have hnr2 : nr ∈ t.rows.map (normRow pdt (t.headers.map stripName)) := by
      simpa [normalize] using hnr
    obtain ⟨r, hr, rfl⟩ := List.mem_map.mp hnr2
    rw [normRow_closedAmount pdt _ r hC]
    cases h : r.closedAmount <;> simp [parseNumCell]
  · intro r hr
    constructor
    · intro hcase
      rw [normRow_closedAmount pdt _ r hC]
      rcases hcase with h | ⟨s, hs, hps⟩
      · rw [h]; rfl
      · rw [hs]; simp [parseNumCell, hps]
    · intro s q hs hq
      rw [normRow_closedAmount pdt _ r hC]
      rw [hs]; simp [parseNumCell, hq]

/-- C8 witness: the theorem instantiated at the raw table with one
parsable and one unparsable amount cell. -/
theorem C8_amount_parsing_witness :
    (colAmount ∈ tRaw.headers.map stripName)
    ∧ ((normalize pdtDays tRaw).rows.length = tRaw.rows.length
      ∧ (∀ nr ∈ (normalize pdtDays tRaw).rows, ∃ q : Int, nr.closedAmount = Cell.num q)
      ∧ (∀ r ∈ tRaw.rows,
          ((r.closedAmount = Cell.na ∨ ∃ s, r.closedAmount = Cell.str s ∧ parseNum s = none)
            → (normRow pdtDays (tRaw.headers.map stripName) r).closedAmount = Cell.num 0)
          ∧ (∀ s q, r.closedAmount = Cell.str s → parseNum s = some q
            → (normRow pdtDays (tRaw.headers.map stripName) r).closedAmount = Cell.num q))) :=
  ⟨by decide, C8_amount_parsing pdtDays tRaw (by decide)⟩

/-- C9: the Normalizer is idempotent on raw input tables — normalizing a
normalized table changes nothing (re-stripping trimmed names is a no-op,
re-parsing parsed columns is the identity). -/
theorem C9_normalize_idempotent (pdt : String → Option DT) (t : Table)
    (_hraw : isRawTable t = true) :
    normalize pdt (normalize pdt t) = normalize pdt t := by
  have hhs : (t.headers.map stripName).map stripName = t.headers.map stripName := by
    rw [List.map_map]
    apply List.map_congr_left
    intro a _
    exact stripName_idem a
  unfold normalize
  simp only
  rw [hhs, List.map_map]
  apply congrArg (Table.mk (t.headers.map stripName))
  apply List.map_congr_left
  intro r _
  exact normRow_idem pdt _ r

/-- C9 witness: the theorem instantiated at a raw table with a padded
header and a mix of parsable, unparsable and missing cells. -/
theorem C9_normalize_idempotent_witness :
    isRawTable tRaw = true
      ∧ normalize pdtDays (normalize pdtDays tRaw) = normalize pdtDays tRaw :=
  ⟨by decide, C9_normalize_idempotent pdtDays tRaw (by decide)⟩

/-- C10: a row with a null timestamp is kept by the BDE/Plan filters when
no date range is active, is always dropped by an active date range, and is
invisible to the by-day aggregate, whose counts then sum to strictly less
than `total_responses`. -/
theorem C10_null_timestamp (t : Table) (r : Row)
    (hT : colTimestamp ∈ t.headers) (hr : r ∈ t.rows)
    (hnull : dayVal? r.timestamp = none) :
    (∀ bde plan t', filterTable t bde plan none = .ok t'
        → selPred bde r.bdeName = true → selPred plan r.plan = true → r ∈ t'.rows)
    ∧ (∀ bde plan a b t', filterTable t bde plan (some (a, b)) = .ok t' → r ∉ t'.rows)
    ∧ ((byDayAgg t).map Prod.snd).sum < total_responses t := by
  refine ⟨?_, ?_, ?_⟩
  · intro bde plan t' hok hbde hplan
    obtain ⟨-, hrows⟩ := filterTable_ok t bde plan none t' hok
    rw [hrows, List.mem_filter]
    refine ⟨hr, ?_⟩
    rw [hbde, hplan]
    rfl
  · intro bde plan a b t' hok hmem
    obtain ⟨-, hrows⟩ := filterTable_ok t bde plan (some (a, b)) t' hok
    rw [hrows, List.mem_filter] at hmem
    obtain ⟨-, hpred⟩ := hmem
    have hdr : drPred t (some (a, b)) r = false := by
      simp [drPred, drMatch, hT, hnull]
    rw [hdr] at hpred
    simp at hpred
  · have hne : t.rows ≠ [] := List.ne_nil_of_mem hr
    have hagg : byDayAgg t
        = (sortedKeys (dayList t)).map (fun d => (d, countInt d (dayList t))) := by
      unfold byDayAgg
      rw [if_pos ⟨hT, hne⟩]
    have hsnd : ((byDayAgg t).map Prod.snd).sum = (dayList t).length := by
      rw [hagg, List.map_map]
      exact sumCounts_sortedKeys (dayList t)
    rw [hsnd]
    obtain ⟨l1, l2, hsplit⟩ := List.append_of_mem hr
    have hlen : (dayList t).length ≤ l1.length + l2.length := by
      unfold dayList
      rw [hsplit, List.filterMap_append]
      have hcons : List.filterMap (fun row => dayVal? row.timestamp) (r :: l2)
          = List.filterMap (fun row => dayVal? row.timestamp) l2 := by
        simp [List.filterMap_cons, hnull]
      rw [hcons, List.length_append]
      have h1 := List.length_filterMap_le (fun row => dayVal? row.timestamp) l1
      have h2 := List.length_filterMap_le (fun row => dayVal? row.timestamp) l2
      omega
    have htot : total_responses t = l1.length + l2.length + 1 := by
      unfold total_responses
      rw [hsplit, List.length_append, List.length_cons]
      omega
    omega

/-- C10 witness: the theorem instantiated at the concrete table whose
third row has a null timestamp. -/
theorem C10_null_timestamp_witness :
    (colTimestamp ∈ tFull.headers ∧ tFull.rows.get ⟨2, by decide⟩ ∈ tFull.rows
      ∧ dayVal? (tFull.rows.get ⟨2, by decide⟩).timestamp = none)
    ∧ ((∀ bde plan t', filterTable tFull bde plan none = .ok t'
          → selPred bde (tFull.rows.get ⟨2, by decide⟩).bdeName = true
          → selPred plan (tFull.rows.get ⟨2, by decide⟩).plan = true
          → tFull.rows.get ⟨2, by decide⟩ ∈ t'.rows)
      ∧ (∀ bde plan a b t', filterTable tFull bde plan (some (a, b)) = .ok t'
          → tFull.rows.get ⟨2, by decide⟩ ∉ t'.rows)
      ∧ ((byDayAgg tFull).map Prod.snd).sum < total_responses tFull) :=
  ⟨⟨by decide, by decide, by decide⟩,
    C10_null_timestamp tFull (tFull.rows.get ⟨2, by decide⟩) (by decide) (by decide) (by decide)⟩

/-- C4 amended: the claim holds only for selections that do not index an
absent column, and for the by-BDE aggregate only when `CLOSED AMOUNT`
accompanies a present `BDE NAME` on a nonempty table (the code's `agg`
dict and unguarded filters raise `KeyError` otherwise, see the
counterexample).  Under those conditions the run completes without an
exception and each output whose guard column is absent degrades to its
empty or zero value while the rest still compute. -/
theorem C4_amended_degradation (pdt : String → Option DT) (fetch : Except String Table)
    (bde plan : Sel) (dr : Option (Int × Int)) (today : Int)
    (hb : bde ≠ Sel.all → colBde ∈ (load_data pdt fetch).headers)
    (hp : plan ≠ Sel.all → colPlan ∈ (load_data pdt fetch).headers)
    (hc : colBde ∈ (load_data pdt fetch).headers → (load_data pdt fetch).rows ≠ []
        → colAmount ∈ (load_data pdt fetch).headers) :
    ∃ outs, mainPipeline pdt fetch bde plan dr today = .ok outs
      ∧ (colAmount ∉ (load_data pdt fetch).headers → outs.total_closed_amount = 0)
      ∧ (colTimestamp ∉ (load_data pdt fetch).headers → outs.by_day = [])
      ∧ (colPlan ∉ (load_data pdt fetch).headers → outs.by_plan = [])
      ∧ (colClosure ∉ (load_data pdt fetch).headers
          → outs.due_today = [] ∧ outs.due_within = [])
      ∧ (colBde ∉ (load_data pdt fetch).headers → outs.by_bde = []) := by
  by_cases hemp : (load_data pdt fetch).rows.isEmpty = true
  · refine ⟨emptyOutputs, ?_, fun _ => rfl, fun _ => rfl, fun _ => rfl,
      fun _ => ⟨rfl, rfl⟩, fun _ => rfl⟩
    unfold mainPipeline
    rw [if_pos hemp]
  · have hne : (load_data pdt fetch).rows ≠ [] := by
      intro h
      exact hemp (List.isEmpty_iff.mpr h)
    have hfil := filterTable_eq (load_data pdt fetch) bde plan dr hb hp
    cases hft : filterTable (load_data pdt fetch) bde plan dr with
    | error e =>
      exfalso
      rw [hfil] at hft
      exact Except.noConfusion hft
    | ok ft =>
      obtain ⟨hh, -⟩ := filterTable_ok (load_data pdt fetch) bde plan dr ft hft
      obtain ⟨bb, hbb, hbbnil⟩ := byBdeAgg_ok_cases ft
        (fun h1 _ => hh ▸ hc (hh ▸ h1) hne)
      have hmain : mainPipeline pdt fetch bde plan dr today = .ok
          { filtered := ft.rows
            total_responses := total_responses ft
            total_closed_amount := totalClosedAmount ft
            by_bde := bb
            by_plan := byPlanAgg ft
            by_day := byDayAgg ft
            due_today := dueToday ft today
            due_within := dueWithin7 ft today } := by
        unfold mainPipeline
        rw [if_neg hemp]
        simp only [hft, hbb]
      refine ⟨{ filtered := ft.rows
                total_responses := total_responses ft
                total_closed_amount := totalClosedAmount ft
                by_bde := bb
                by_plan := byPlanAgg ft
                by_day := byDayAgg ft
                due_today := dueToday ft today
                due_within := dueWithin7 ft today }, hmain, ?_, ?_, ?_, ?_, ?_⟩
      · intro hA
        show totalClosedAmount ft = 0
        unfold totalClosedAmount
        rw [if_neg (fun h => hA (hh ▸ h))]
      · intro hT
        show byDayAgg ft = []
        unfold byDayAgg
        rw [if_neg (fun hg => hT (hh ▸ hg.1))]
      · intro hP
        show byPlanAgg ft = []
        unfold byPlanAgg
        rw [if_neg (fun hg => hP (hh ▸ hg.1))]
      · intro hE
        constructor
        · show dueToday ft today = []
          unfold dueToday
          rw [if_neg (fun h => hE (hh ▸ h))]
        · show dueWithin7 ft today = []
          unfold dueWithin7
          rw [if_neg (fun h => hE (hh ▸ h))]
      · intro hB
        exact hbbnil (fun h => hB (hh ▸ h))

/-- C4 amended witness: a table carrying only `BDE NAME` and
`CLOSED AMOUNT`, filtered by a concrete BDE; the plan, timeline and
closure outputs all degrade and the run returns without error. -/
theorem C4_amended_degradation_witness :
    ((Sel.only ("A") ≠ Sel.all → colBde ∈ (load_data pdt0 (.ok tBdeAmt)).headers)
      ∧ (Sel.all ≠ Sel.all → colPlan ∈ (load_data pdt0 (.ok tBdeAmt)).headers)
      ∧ (colBde ∈ (load_data pdt0 (.ok tBdeAmt)).headers
          → (load_data pdt0 (.ok tBdeAmt)).rows ≠ []
          → colAmount ∈ (load_data pdt0 (.ok tBdeAmt)).headers))
    ∧ (∃ outs, mainPipeline pdt0 (.ok tBdeAmt) (Sel.only ("A")) Sel.all none 0 = .ok outs
      ∧ (colAmount ∉ (load_data pdt0 (.ok tBdeAmt)).headers → outs.total_closed_amount = 0)
      ∧ (colTimestamp ∉ (load_data pdt0 (.ok tBdeAmt)).headers → outs.by_day = [])
      ∧ (colPlan ∉ (load_data pdt0 (.ok tBdeAmt)).headers → outs.by_plan = [])
      ∧ (colClosure ∉ (load_data pdt0 (.ok tBdeAmt)).headers
          → outs.due_today = [] ∧ outs.due_within = [])
      ∧ (colBde ∉ (load_data pdt0 (.ok tBdeAmt)).headers → outs.by_bde = [])) :=
  ⟨⟨fun _ => by decide, fun h => absurd rfl h, fun _ _ => by decide⟩,
    C4_amended_degradation pdt0 (.ok tBdeAmt) (Sel.only ("A")) Sel.all none 0
      (fun _ => by decide) (fun h => absurd rfl h) (fun _ _ => by decide)⟩

/-- C5 amended: for every raw input table and filter selection whose run
completes, `total_closed_amount` equals the exact sum of the filtered
rows' `closed_amount` (unparsable or absent cells contributing 0, an
empty filtered set summing to 0, never null), and it is non-negative
whenever every filtered row's parsed amount is non-negative — the
unconditional non-negativity of the claim fails because negative amount
strings parse (see the counterexample). -/
theorem C5_amended_total_amount (pdt : String → Option DT) (t : Table) (bde plan : Sel)
    (dr : Option (Int × Int)) (today : Int) (outs : Outputs)
    (hraw : isRawTable t = true)
    (hok : mainPipeline pdt (.ok t) bde plan dr today = .ok outs) :
    outs.total_closed_amount = (outs.filtered.map (fun r => cellNum r.closedAmount)).sum
    ∧ ((∀ r ∈ outs.filtered, 0 ≤ cellNum r.closedAmount) → 0 ≤ outs.total_closed_amount)
    ∧ (outs.filtered = [] → outs.total_closed_amount = 0) := by
  unfold mainPipeline at hok
  by_cases hemp : (load_data pdt (.ok t)).rows.isEmpty = true
  · rw [if_pos hemp] at hok
    obtain rfl : emptyOutputs = outs := by simpa using hok
    exact ⟨rfl, fun _ => le_refl 0, fun _ => rfl⟩
  · rw [if_neg hemp] at hok
    cases hft : filterTable (load_data pdt (.ok t)) bde plan dr with
    | error e =>
      simp only [hft] at hok
      exact absurd hok (by simp)
    | ok ft =>
      simp only [hft] at hok
      cases hbb : byBdeAgg ft with
      | error e =>
        simp only [hbb] at hok
        exact absurd hok (by simp)
      | ok bb =>
        simp only [hbb] at hok
        obtain rfl : _ = outs := by simpa using hok
        obtain ⟨hh, hrows⟩ := filterTable_ok _ bde plan dr ft hft
        have hsum : totalClosedAmount ft
            = (ft.rows.map (fun r => cellNum r.closedAmount)).sum := by
          unfold totalClosedAmount
          by_cases hA : colAmount ∈ ft.headers
          · rw [if_pos hA]
          · rw [if_neg hA]
            symm
            apply List.sum_eq_zero
            intro x hx
            obtain ⟨r, hrmem, rfl⟩ := List.mem_map.mp hx
            have hrdf : r ∈ (load_data pdt (.ok t)).rows := by
              rw [hrows] at hrmem
              exact (List.mem_filter.mp hrmem).1
            have hrdf2 : r ∈ t.rows.map (normRow pdt (t.headers.map stripName)) := by
              simpa [load_data, normalize] using hrdf
            obtain ⟨r0, hr0, rfl⟩ := List.mem_map.mp hrdf2
            have hAmem : colAmount ∉ t.headers.map stripName := by
              intro hmem
              apply hA
              rw [hh]
              simpa [load_data, normalize] using hmem
            rw [normRow_closedAmount_not_mem pdt _ r0 hAmem]
            have hrawrow : isRawRow r0 = true := (List.all_eq_true.mp hraw) r0 hr0
            exact cellNum_of_raw _ (isRawRow_closedAmount r0 hrawrow)
        refine ⟨hsum, ?_, ?_⟩
        · intro hpos
          show (0 : Int) ≤ totalClosedAmount ft
          rw [hsum]
          apply List.sum_nonneg
          intro x hx
          obtain ⟨r, hrmem, rfl⟩ := List.mem_map.mp hx
          exact hpos r hrmem
        · intro hfil
          show totalClosedAmount ft = 0
          rw [hsum]
          have hfil2 : ft.rows = [] := hfil
          rw [hfil2]
          rfl

/-- C5 amended witness: the theorem instantiated on the negative-amount
table, whose completed run has a filtered set of one row with parsed
amount -100. -/
theorem C5_amended_total_amount_witness :
    (isRawTable tNeg = true
      ∧ mainPipeline pdt0 (.ok tNeg) Sel.all Sel.all none 0 = .ok outsNeg)
    ∧ (outsNeg.total_closed_amount
        = (outsNeg.filtered.map (fun r => cellNum r.closedAmount)).sum
      ∧ ((∀ r ∈ outsNeg.filtered, 0 ≤ cellNum r.closedAmount) → 0 ≤ outsNeg.total_closed_amount)
      ∧ (outsNeg.filtered = [] → outsNeg.total_closed_amount = 0)) :=
  ⟨⟨by decide, by rfl⟩,
    C5_amended_total_amount pdt0 tNeg Sel.all Sel.all none 0 outsNeg (by decide) (by rfl)⟩

end Responses
